import Mathlib

/-
Verification of the galoshes key-value mapping core (src/galoshes/meta.py).

The embedding models Python dictionaries as ordered association lists with
unique-key update semantics, Python values by a small inductive type, and the
exceptional control flow of the source by Except.  Field declarations mirror
the initMap tuples (required flag, rename, coercion callable); a coercion
callable is modelled by its input/output behaviour together with the result of
the issubclass(newtype, np.floating) test that the source performs on it.
-/

set_option autoImplicit false

universe u

/-- Model of a Python value as it flows through the galoshes core: integers,
floats (as rationals), complex numbers (real and imaginary rational parts),
strings, and the None singleton. -/
inductive PyVal where
  | int : Int → PyVal
  | float : Rat → PyVal
  | complexV : Rat → Rat → PyVal
  | str : String → PyVal
  | noneV : PyVal
  deriving DecidableEq, Repr

/-- Model of the Python exceptions that the galoshes core can raise.
missingRequiredKey models the ValueError raised by AMMetaClass with message
"Class NAME requires parameter KEY"; typeError models TypeError (the
exception class coercion failures are filtered on); runtimeError models the
RuntimeError CPython raises when a dict changes size during iteration;
nameError models the NameError raised by a reference to an unbound name. -/
inductive PyErr where
  | typeError : PyErr
  | runtimeError : PyErr
  | nameError : PyErr
  | missingRequiredKey : String → String → PyErr
  deriving DecidableEq, Repr

/-- A Python dict with string keys, modelled as the ordered list of its
entries.  All operations below preserve key uniqueness when starting from a
uniquely-keyed dict; lookups use the first matching entry. -/
structure PyDict (α : Type u) where
  entries : List (String × α)
  deriving DecidableEq, Repr

namespace PyDict

variable {α : Type u}

/-- The empty dict. -/
def empty : PyDict α := ⟨[]⟩

/-- Lookup on the entry list: value of the first entry with the given key. -/
def getEntries? : List (String × α) → String → Option α
  | [], _ => Option.none
  | kv :: rest, k => if kv.1 = k then some kv.2 else getEntries? rest k

/-- Python d[k] as a partial lookup. -/
def get? (d : PyDict α) (k : String) : Option α :=
  getEntries? d.entries k

/-- Python (k in d). -/
def contains (d : PyDict α) (k : String) : Bool :=
  d.entries.any (fun kv => kv.1 = k)

/-- Lookup with a default value. -/
def getD (d : PyDict α) (k : String) (v₀ : α) : α :=
  (d.get? k).getD v₀

/-- Assignment on the entry list: replace the first entry with the given key
in place, or append a new entry when the key is absent. -/
def setEntries : List (String × α) → String → α → List (String × α)
  | [], k, v => [(k, v)]
  | kv :: rest, k, v => if kv.1 = k then (k, v) :: rest else kv :: setEntries rest k v

/-- Python d[k] = v. -/
def set (d : PyDict α) (k : String) (v : α) : PyDict α :=
  ⟨setEntries d.entries k v⟩

/-- Python del d[k] (total: removes every entry with the key; on a
uniquely-keyed dict this is exactly deletion of the one entry). -/
def erase (d : PyDict α) (k : String) : PyDict α :=
  ⟨d.entries.filter (fun kv => !(kv.1 = k))⟩

/-- Python d.update(other): set every entry of other, in order. -/
def update (d other : PyDict α) : PyDict α :=
  other.entries.foldl (fun acc kv => acc.set kv.1 kv.2) d

/-- The key list, in entry order. -/
def keys (d : PyDict α) : List String :=
  d.entries.map (fun kv => kv.1)

end PyDict

/-- Model of a coercion callable as stored in the third slot of an initMap
tuple: apply is the behaviour of calling it on a value, and floating is the
result of the test issubclass(newtype, np.floating) that the source performs
on it inside the except TypeError handler.  A callable that is not a class
makes that test itself raise a TypeError, which is observationally the same
TypeError outcome as the floating = false branch, so the Bool model is
faithful at the granularity of exception classes. -/
structure Coercer where
  apply : PyVal → Except PyErr PyVal
  floating : Bool

/-- One initMap tuple (Required, Rename as, Store as type) for one key, as in
the AttributeMapper docstring in src/galoshes/meta.py. -/
structure FieldDecl where
  required : Bool
  rename : Option String
  coercer : Option Coercer

/-- A raw initMap value slot as written in a class body: either a tuple or the
explicit None marker that the metaclass treats as a deletion request. -/
abbrev DeclSlot : Type := Option FieldDecl

/-- Model of np.iscomplex: true exactly for a complex value whose imaginary
part is nonzero. -/
def iscomplex : PyVal → Bool
  | PyVal.complexV _ im => decide (im ≠ 0)
  | _ => false

/-- Model of x.real: the real component of a complex value; any other value
is its own real component (for non-numeric values the source never reaches
this attribute access, because it is guarded by np.iscomplex). -/
def PyVal.real : PyVal → PyVal
  | PyVal.complexV re _ => PyVal.float re
  | v => v

/-- The recursive body of the local function typer in AMMetaClass.call
(src/galoshes/meta.py lines 69-77), with explicit recursion fuel.  The Python
recursion typer(x.real) always terminates at depth at most two, because the
real component of a value is never numerically complex; exhausted fuel is
mapped to runtimeError (a RecursionError analogue) and is unreachable from
typer below. -/
def typerFuel : Nat → Coercer → PyVal → Except PyErr PyVal
  | 0, _, _ => Except.error PyErr.runtimeError
  | Nat.succ n, c, x =>
      match c.apply x with
      | Except.ok v => Except.ok v
      | Except.error PyErr.typeError =>
          if iscomplex x && c.floating then typerFuel n c x.real
          else Except.error PyErr.typeError
      | Except.error e => Except.error e

/-- The coercion routine built per key in AMMetaClass.call: identity when the
declaration has no coercer (initMap entry slot None), otherwise the recursive
typer with its complex-to-real retry. -/
def typer : Option Coercer → PyVal → Except PyErr PyVal
  | Option.none, x => Except.ok x
  | some c, x => typerFuel 2 c x

/-- The cleanup pass of AMMetaClass.new over one merged initMap
(src/galoshes/meta.py lines 36-38): for key in initMap: if initMap[key] is
None: del initMap[key].  CPython raises RuntimeError (dictionary changed size
during iteration) at the iterator step that follows any deletion, so the pass
returns the dict unchanged when no value is the None marker and otherwise
fails with runtimeError; the entry list of the dict at loop entry is the
iteration order. -/
def cleanupGo : List (String × DeclSlot) → PyDict DeclSlot → Except PyErr (PyDict DeclSlot)
  | [], d => Except.ok d
  | (k, _) :: rest, d =>
      match d.get? k with
      | some Option.none => Except.error PyErr.runtimeError
      | _ => cleanupGo rest d

/-- One iteration of the merge loop body of AMMetaClass.new: overlay one base
map, then run the deletion-marker cleanup pass. -/
def cleanupNone (d : PyDict DeclSlot) : Except PyErr (PyDict DeclSlot) :=
  cleanupGo d.entries d

/-- AMMetaClass.new (src/galoshes/meta.py lines 28-49), restricted to the
initMap computation: base registries in reverse base-list order, followed by
the declarations of the class body, folded through update-then-cleanup from
the empty dict. -/
def amNew (baseMaps : List (PyDict DeclSlot)) (ownAttrs : PyDict DeclSlot) :
    Except PyErr (PyDict DeclSlot) :=
  (baseMaps.reverse ++ [ownAttrs]).foldlM
    (fun acc bm => cleanupNone (acc.update bm)) PyDict.empty

/-- The attribute name a declared key is stored under: the rename slot when
present, otherwise the key itself. -/
def storedName (k : String) (d : FieldDecl) : String :=
  (d.rename).getD k

/-- Construction state of AMMetaClass.call: the supplied configuration dict
and the attribute dict of the object under construction. -/
structure ConsState where
  config : PyDict PyVal
  attrs : PyDict PyVal
  deriving Repr

/-- The per-key loop of AMMetaClass.call (src/galoshes/meta.py lines 62-82)
over the entries of the merged initMap: raise the required-parameter
ValueError for a required absent key, coerce and store a present key under
its stored name, skip an absent optional key.  The result pairs the state
reached with the exception raised, if any. -/
def amCallGo (name : String) :
    List (String × FieldDecl) → ConsState → ConsState × Option PyErr
  | [], s => (s, Option.none)
  | (key, d) :: rest, s =>
      if !(s.config.contains key) && d.required then
        (s, some (PyErr.missingRequiredKey name key))
      else if s.config.contains key then
        match typer d.coercer (s.config.getD key PyVal.noneV) with
        | Except.ok v =>
            amCallGo name rest ⟨s.config, s.attrs.set (storedName key d) v⟩
        | Except.error e => (s, some e)
      else amCallGo name rest s

/-- AMMetaClass.call for a class with the given name and merged initMap, run
on a configuration dict, starting from an object with no attributes (the
AttributeMapper initializer itself is a no-op). -/
def amCall (name : String) (reg : PyDict FieldDecl) (cfg : PyDict PyVal) :
    Except PyErr (PyDict PyVal) :=
  match amCallGo name reg.entries ⟨cfg, PyDict.empty⟩ with
  | (s, Option.none) => Except.ok s.attrs
  | (_, some e) => Except.error e

/-- The required class property of AttributeMapper (src/galoshes/meta.py
lines 149-153): the set of initMap keys whose first tuple slot is true. -/
def requiredOf (reg : PyDict FieldDecl) : Finset String :=
  ((reg.entries.filter (fun kv => kv.2.required)).map (fun kv => kv.1)).toFinset

/-- The optional class property of AttributeMapper (src/galoshes/meta.py
lines 155-159): the set of initMap keys whose first tuple slot is false. -/
def optionalOf (reg : PyDict FieldDecl) : Finset String :=
  ((reg.entries.filter (fun kv => !kv.2.required)).map (fun kv => kv.1)).toFinset

/-- Python reduce(set.union, sets) without an initial element: the head of the
list folded with union over the tail; on an empty list the source raises
TypeError, so the empty case here is a junk value and every theorem that uses
this definition carries a nonemptiness hypothesis. -/
def reduceUnion (sets : List (Finset String)) : Finset String :=
  match sets with
  | [] => ∅
  | s :: rest => rest.foldl (fun a b => a ∪ b) s

/-- The required set computed by SCFilter.init (src/galoshes/meta.py line
179): the union of the required sets of the classes, via reduce. -/
def scFilterRequired (clss : List (PyDict FieldDecl)) : Finset String :=
  reduceUnion (clss.map requiredOf)

/-- The optional set computed by SCFilter.init (src/galoshes/meta.py lines
180-181): the union of the optional sets of the classes, then
symmetric_difference_update with the required set, i.e. the symmetric
difference of the two unions. -/
def scFilterOptional (clss : List (PyDict FieldDecl)) : Finset String :=
  let o := reduceUnion (clss.map optionalOf)
  let r := scFilterRequired clss
  (o \ r) ∪ (r \ o)

/-- SCFilter.call (src/galoshes/meta.py lines 183-199) with the configuration
dict threaded through explicitly: the body only reads the dict, so the first
component of the result is the dict after the call.  When some required key is
absent, the raise statement evaluates cls.dunder-name with cls unbound in that
scope, so a NameError is raised instead of the intended ValueError.  The
returned dict keeps exactly the entries of the configuration whose key lies in
the union of the required and optional sets; the source builds it by a
comprehension over that union, which denotes the same mapping. -/
def scFilterRun (clss : List (PyDict FieldDecl)) (cfg : PyDict PyVal) :
    PyDict PyVal × Except PyErr (PyDict PyVal) :=
  if ∀ k ∈ scFilterRequired clss, cfg.contains k = true then
    (cfg, Except.ok ⟨cfg.entries.filter
      (fun kv => decide (kv.1 ∈ scFilterRequired clss ∪ scFilterOptional clss))⟩)
  else (cfg, Except.error PyErr.nameError)

/-- The value of a SCFilter application: the exception raised or the filtered
dict returned. -/
def scFilterCall (clss : List (PyDict FieldDecl)) (cfg : PyDict PyVal) :
    Except PyErr (PyDict PyVal) :=
  (scFilterRun clss cfg).2

/-- An attribute value of a BaseSCCache instance: either a plain mapped value
or a stored configuration dict (the value of the attribute with the name
underscore-systemConfig). -/
inductive CVal where
  | plain : PyVal → CVal
  | cfgv : PyDict PyVal → CVal
  deriving DecidableEq, Repr

/-- BaseSCCache.clearCache (src/galoshes/meta.py lines 224-228): for each
name in cacheItems, delete the attribute from the instance if present. -/
def clearCache (cacheItems : List String) (attrs : PyDict CVal) : PyDict CVal :=
  cacheItems.foldl (fun a item => if a.contains item then a.erase item else a) attrs

/-- The systemConfig property setter of BaseSCCache (src/galoshes/meta.py
lines 219-222): store the new configuration under the attribute
underscore-systemConfig, then run clearCache. -/
def setSystemConfig (cacheItems : List String) (attrs : PyDict CVal)
    (value : PyDict PyVal) : PyDict CVal :=
  clearCache cacheItems (attrs.set "_systemConfig" (CVal.cfgv value))

/-- A declaration (True, None, None): required, no rename, no coercer. -/
def declReq : FieldDecl := ⟨true, Option.none, Option.none⟩

/-- A declaration (False, None, None): optional, no rename, no coercer. -/
def declOpt : FieldDecl := ⟨false, Option.none, Option.none⟩

/-- Model of np.float64 used as a coercer: real numbers coerce to float,
complex values raise TypeError, and issubclass(np.float64, np.floating)
holds. -/
def floatC : Coercer where
  apply
    | PyVal.int n => Except.ok (PyVal.float n)
    | PyVal.float q => Except.ok (PyVal.float q)
    | _ => Except.error PyErr.typeError
  floating := true

/-- Registry of a class declaring two required keys a and b. -/
def regTwoReq : PyDict FieldDecl := ⟨[("a", declReq), ("b", declReq)]⟩

/-- Registry of a class declaring the single required key x. -/
def regReqX : PyDict FieldDecl := ⟨[("x", declReq)]⟩

/-- Registry of a class declaring key a as required and renamed to a itself. -/
def regSelfRename : PyDict FieldDecl := ⟨[("a", ⟨true, some "a", Option.none⟩)]⟩

/-- Registry declaring required key f coerced by the float model. -/
def regFloatF : PyDict FieldDecl := ⟨[("f", ⟨true, Option.none, some floatC⟩)]⟩

/-- Configuration dict with the single entry a = 5. -/
def cfgA5 : PyDict PyVal := ⟨[("a", PyVal.int 5)]⟩

/-- Configuration dict with entries x = 1 and z = 2. -/
def cfgXZ : PyDict PyVal := ⟨[("x", PyVal.int 1), ("z", PyVal.int 2)]⟩

/-- Configuration dict binding f to the complex number 3 + 4i. -/
def cfgF34 : PyDict PyVal := ⟨[("f", PyVal.complexV 3 4)]⟩

/-- A base class initMap declaring key a (as a raw slot map). -/
def baseMapA : PyDict DeclSlot := ⟨[("a", some declReq)]⟩

/-- A class body initMap retracting key a with the explicit None marker. -/
def ownDel : PyDict DeclSlot := ⟨[("a", (Option.none : DeclSlot))]⟩

/-- Attribute dict of a caching instance: a stored empty configuration, a
cached attribute underscore-x, and an unrelated attribute underscore-y. -/
def cacheAttrs0 : PyDict CVal :=
  ⟨[("_systemConfig", CVal.cfgv PyDict.empty),
    ("_x", CVal.plain (PyVal.int 3)),
    ("_y", CVal.plain (PyVal.int 7))]⟩

/-- A nonempty replacement configuration dict. -/
def cfgNew : PyDict PyVal := ⟨[("a", PyVal.int 1)]⟩

/-- The registry with the required flag of the declaration for one key forced
to false and all other slots unchanged: used to state that construction with
the key present does not depend on that flag. -/
def unrequireKey (k : String) (reg : PyDict FieldDecl) : PyDict FieldDecl :=
  ⟨reg.entries.map (fun p => if p.1 = k then (p.1, ⟨false, p.2.rename, p.2.coercer⟩) else p)⟩

namespace PyDict

variable {α : Type u}

theorem getEntries?_set_self (l : List (String × α)) (k : String) (v : α) :
    getEntries? (setEntries l k v) k = some v := by
  induction l with
  | nil => simp [setEntries, getEntries?]
  | cons kv rest ih =>
      by_cases hk : kv.1 = k
      · simp [setEntries, hk, getEntries?]
      · simp [setEntries, hk, getEntries?, ih]

theorem get?_set_self (d : PyDict α) (k : String) (v : α) :
    (d.set k v).get? k = some v :=
  getEntries?_set_self d.entries k v

theorem getEntries?_set_ne (l : List (String × α)) (k k' : String) (v : α) (h : k' ≠ k) :
    getEntries? (setEntries l k v) k' = getEntries? l k' := by
  have h2 : ¬(k = k') := fun hc => h hc.symm
  induction l with
  | nil => simp [setEntries, getEntries?, h2]
  | cons kv rest ih =>
      by_cases hk : kv.1 = k
      · by_cases hk' : kv.1 = k'
        · exact absurd (hk'.symm.trans hk) h
        · simp [setEntries, hk, getEntries?, hk', h2]
      · by_cases hk' : kv.1 = k' <;> simp [setEntries, hk, getEntries?, hk', h, h2, ih]

theorem get?_set_ne (d : PyDict α) (k k' : String) (v : α) (h : k' ≠ k) :
    (d.set k v).get? k' = d.get? k' :=
  getEntries?_set_ne d.entries k k' v h

theorem contains_eq_false_iff (d : PyDict α) (k : String) :
    d.contains k = false ↔ ∀ p ∈ d.entries, p.1 ≠ k := by
  simp [contains]

theorem getEntries?_eq_none (l : List (String × α)) (k : String)
    (h : ∀ p ∈ l, p.1 ≠ k) : getEntries? l k = Option.none := by
  induction l with
  | nil => simp [getEntries?]
  | cons kv rest ih =>
      have hk : kv.1 ≠ k := h kv (List.mem_cons_self kv rest)
      simp [getEntries?, hk]
      exact ih (fun p hp => h p (List.mem_cons_of_mem kv hp))

theorem get?_eq_none_of_not_contains (d : PyDict α) (k : String)
    (h : d.contains k = false) : d.get? k = Option.none :=
  getEntries?_eq_none d.entries k ((contains_eq_false_iff d k).mp h)

theorem contains_iff_get?_isSome (d : PyDict α) (k : String) :
    d.contains k = true ↔ (d.get? k).isSome = true := by
  show d.entries.any (fun kv => kv.1 = k) = true ↔ (getEntries? d.entries k).isSome = true
  induction d.entries with
  | nil => simp [getEntries?]
  | cons kv rest ih =>
      by_cases hk : kv.1 = k <;> simp [getEntries?, hk, ih]

theorem contains_erase_self (d : PyDict α) (k : String) :
    (d.erase k).contains k = false := by
  simp [erase, contains]

theorem erase_contains_false (d : PyDict α) (k a : String)
    (h : d.contains a = false) : (d.erase k).contains a = false := by
  rw [contains_eq_false_iff] at h ⊢
  intro p hp
  exact h p (List.mem_of_mem_filter hp)

theorem getEntries?_filter_ne (l : List (String × α)) (k a : String) (h : a ≠ k) :
    getEntries? (l.filter (fun kv => !(kv.1 = k))) a = getEntries? l a := by
  have h2 : ¬(k = a) := fun hc => h hc.symm
  induction l with
  | nil => simp [getEntries?]
  | cons kv rest ih =>
      by_cases hk : kv.1 = k
      · have ha : ¬(kv.1 = a) := by rw [hk]; exact fun hc => h hc.symm
        simp [List.filter_cons, hk, getEntries?, ha, h2, ih]
      · by_cases ha : kv.1 = a <;> simp [List.filter_cons, hk, getEntries?, ha, h, ih]

theorem get?_erase_ne (d : PyDict α) (k a : String) (h : a ≠ k) :
    (d.erase k).get? a = d.get? a :=
  getEntries?_filter_ne d.entries k a h

theorem contains_set_ne (d : PyDict α) (k k' : String) (v : α) (h : k' ≠ k) :
    (d.set k v).contains k' = d.contains k' := by
  have h2 : ¬(k = k') := fun hc => h hc.symm
  show (setEntries d.entries k v).any (fun kv => kv.1 = k') = d.entries.any (fun kv => kv.1 = k')
  induction d.entries with
  | nil => simp [setEntries, h2]
  | cons kv rest ih =>
      by_cases hk : kv.1 = k
      · simp [setEntries, hk, h2]
      · simp [setEntries, hk, ih]


end PyDict

theorem iscomplex_real_false (x : PyVal) : iscomplex x.real = false := by
  cases x <;> simp [PyVal.real, iscomplex]

theorem amCallGo_config (name : String) (fields : List (String × FieldDecl))
    (s : ConsState) : (amCallGo name fields s).1.config = s.config := by
  induction fields generalizing s with
  | nil => rfl
  | cons p rest ih =>
      obtain ⟨key, d⟩ := p
      simp only [amCallGo]
      split
      · rfl
      · split
        · split
          · exact ih _
          · rfl
        · exact ih _

theorem amCallGo_fails (name : String) (fields : List (String × FieldDecl))
    (s : ConsState) (k : String) (d : FieldDecl)
    (hmem : (k, d) ∈ fields) (hreq : d.required = true)
    (habs : s.config.contains k = false) :
    ∃ e, (amCallGo name fields s).2 = some e := by
  induction fields generalizing s with
  | nil => cases hmem
  | cons p rest ih =>
      obtain ⟨key, d'⟩ := p
      simp only [amCallGo]
      split
      · exact ⟨PyErr.missingRequiredKey name key, rfl⟩
      · rename_i hcond
        split
        · rename_i hin
          split
          · rename_i v hv
            have hmem' : (k, d) ∈ rest := by
              rcases List.mem_cons.mp hmem with h | h
              · exfalso
                have hkey : key = k := (Prod.mk.injEq ..).mp h.symm |>.1
                rw [hkey, habs] at hin
                cases hin
              · exact h
            exact ih _ hmem' habs
          · exact ⟨_, rfl⟩
        · rename_i hnin
          have hmem' : (k, d) ∈ rest := by
            rcases List.mem_cons.mp hmem with h | h
            · exfalso
              obtain ⟨hkey, hd⟩ := Prod.mk.injEq .. |>.mp h.symm
              rw [hkey, habs, hd, hreq] at hcond
              simp at hcond
            · exact h
          exact ih _ hmem' habs

theorem amCallGo_first_missing (name k : String) (d : FieldDecl)
    (pre : List (String × FieldDecl)) (post : List (String × FieldDecl)) :
    ∀ s : ConsState, s.config.contains k = false → d.required = true →
    (∀ p ∈ pre, (p.2.required = true → s.config.contains p.1 = true) ∧
      (s.config.contains p.1 = true →
        ∃ v, typer p.2.coercer (s.config.getD p.1 PyVal.noneV) = Except.ok v)) →
    (amCallGo name (pre ++ (k, d) :: post) s).2 =
      some (PyErr.missingRequiredKey name k) := by
  induction pre with
  | nil =>
      intro s habs hreq _
      simp [amCallGo, habs, hreq]
  | cons p pre' ih =>
      intro s habs hreq hpre
      obtain ⟨hp1, hp2⟩ := hpre p (List.mem_cons_self p pre')
      have hcond : (!s.config.contains p.1 && p.2.required) = false := by
        cases hr : p.2.required
        · simp
        · rw [hp1 hr]
          simp
      by_cases hin : s.config.contains p.1 = true
      · obtain ⟨v, hv⟩ := hp2 hin
        show (amCallGo name ((p.1, p.2) :: (pre' ++ (k, d) :: post)) s).2 = _
        rw [amCallGo, hcond]
        simp only [Bool.false_eq_true, if_false]
        rw [hin]
        simp only [if_true]
        rw [hv]
        exact ih _ habs hreq
          (fun q hq => hpre q (List.mem_cons_of_mem p hq))
      · have hin' : s.config.contains p.1 = false := by
          cases h : s.config.contains p.1
          · rfl
          · exact absurd h hin
        show (amCallGo name ((p.1, p.2) :: (pre' ++ (k, d) :: post)) s).2 = _
        rw [amCallGo, hcond]
        simp only [Bool.false_eq_true, if_false]
        rw [hin']
        simp only [Bool.false_eq_true, if_false]
        exact ih _ habs hreq
          (fun q hq => hpre q (List.mem_cons_of_mem p hq))

theorem amCallGo_unrequire (name k : String) (fields : List (String × FieldDecl)) :
    ∀ s : ConsState, s.config.contains k = true →
    amCallGo name
      (fields.map (fun p => if p.1 = k then (p.1, ⟨false, p.2.rename, p.2.coercer⟩) else p)) s =
    amCallGo name fields s := by
  induction fields with
  | nil => intro s _; rfl
  | cons p rest ih =>
      intro s hin
      by_cases hpk : p.1 = k
      · simp only [List.map_cons, if_pos hpk]
        have hinp : s.config.contains p.1 = true := by rw [hpk]; exact hin
        rw [amCallGo, amCallGo]
        simp only [hinp, Bool.not_true, Bool.false_and, Bool.and_false,
          Bool.false_eq_true, if_false, if_true]
        have hsn : storedName p.1 (⟨false, p.2.rename, p.2.coercer⟩ : FieldDecl) =
            storedName p.1 p.2 := rfl
        cases htv : typer p.2.coercer (s.config.getD p.1 PyVal.noneV) with
        | ok v => simp only [htv, hsn]; exact ih _ hin
        | error e => simp only [htv]
      · simp only [List.map_cons, if_neg hpk]
        rw [amCallGo, amCallGo]
        by_cases hc1 : (!s.config.contains p.1 && p.2.required) = true
        · simp only [hc1, if_true]
        · simp only [hc1, Bool.false_eq_true, if_false]
          by_cases hc2 : s.config.contains p.1 = true
          · simp only [hc2, if_true]
            cases htv : typer p.2.coercer (s.config.getD p.1 PyVal.noneV) with
            | ok v => exact ih _ hin
            | error e => rfl
          · simp only [hc2, if_false]
            exact ih _ hin

theorem amCallGo_attrs_stable (name : String) (fields : List (String × FieldDecl))
    (a : String) (v : PyVal) :
    ∀ s : ConsState, s.attrs.get? a = some v →
    (∀ p ∈ fields, storedName p.1 p.2 = a → s.config.contains p.1 = true →
      typer p.2.coercer (s.config.getD p.1 PyVal.noneV) = Except.ok v) →
    (amCallGo name fields s).1.attrs.get? a = some v := by
  induction fields with
  | nil => intro s hcur _; exact hcur
  | cons p rest ih =>
      intro s hcur hw
      rw [amCallGo]
      by_cases hc1 : (!s.config.contains p.1 && p.2.required) = true
      · simp only [hc1, if_true]; exact hcur
      · simp only [hc1, Bool.false_eq_true, if_false]
        by_cases hc2 : s.config.contains p.1 = true
        · simp only [hc2, if_true]
          cases htv : typer p.2.coercer (s.config.getD p.1 PyVal.noneV) with
          | ok v' =>
              apply ih
              · by_cases hsn : storedName p.1 p.2 = a
                · have hv' : v' = v := by
                    have hthis := hw p (List.mem_cons_self p rest) hsn hc2
                    rw [htv] at hthis
                    exact Except.ok.inj hthis
                  rw [hsn, hv']
                  exact PyDict.get?_set_self s.attrs a v
                · rw [PyDict.get?_set_ne s.attrs (storedName p.1 p.2) a v'
                    (fun hc => hsn hc.symm)]
                  exact hcur
              · exact fun q hq => hw q (List.mem_cons_of_mem p hq)
          | error e => exact hcur
        · simp only [hc2, if_false]
          exact ih _ hcur (fun q hq => hw q (List.mem_cons_of_mem p hq))

theorem amCallGo_attrs_absent (name : String) (fields : List (String × FieldDecl))
    (a : String) :
    ∀ s : ConsState, s.attrs.get? a = Option.none →
    (∀ p ∈ fields, storedName p.1 p.2 ≠ a) →
    (amCallGo name fields s).1.attrs.get? a = Option.none := by
  induction fields with
  | nil => intro s hcur _; exact hcur
  | cons p rest ih =>
      intro s hcur hw
      rw [amCallGo]
      by_cases hc1 : (!s.config.contains p.1 && p.2.required) = true
      · simp only [hc1, if_true]; exact hcur
      · simp only [hc1, Bool.false_eq_true, if_false]
        by_cases hc2 : s.config.contains p.1 = true
        · simp only [hc2, if_true]
          cases htv : typer p.2.coercer (s.config.getD p.1 PyVal.noneV) with
          | ok v' =>
              apply ih
              · rw [PyDict.get?_set_ne s.attrs (storedName p.1 p.2) a v'
                  (fun hc => hw p (List.mem_cons_self p rest) hc.symm)]
                exact hcur
              · exact fun q hq => hw q (List.mem_cons_of_mem p hq)
          | error e => exact hcur
        · simp only [hc2, if_false]
          exact ih _ hcur (fun q hq => hw q (List.mem_cons_of_mem p hq))

theorem amCallGo_attrs_value (name : String) (fields : List (String × FieldDecl))
    (k : String) (d : FieldDecl) :
    ∀ s : ConsState, (amCallGo name fields s).2 = Option.none →
    (k, d) ∈ fields → s.config.contains k = true →
    (∀ p ∈ fields, storedName p.1 p.2 = storedName k d →
      s.config.contains p.1 = true → p = (k, d)) →
    ∃ x v, s.config.get? k = some x ∧ typer d.coercer x = Except.ok v ∧
      (amCallGo name fields s).1.attrs.get? (storedName k d) = some v := by
  induction fields with
  | nil => intro s _ hmem; cases hmem
  | cons p rest ih =>
      intro s hsucc hmem hin huniq
      obtain ⟨key, d'⟩ := p
      rw [amCallGo] at hsucc ⊢
      by_cases hc1 : (!s.config.contains key && d'.required) = true
      · rw [if_pos hc1] at hsucc
        cases hsucc
      · rw [if_neg hc1] at hsucc ⊢
        by_cases hc2 : s.config.contains key = true
        · rw [if_pos hc2] at hsucc ⊢
          cases htv : typer d'.coercer (s.config.getD key PyVal.noneV) with
          | ok v' =>
              rw [htv] at hsucc
              by_cases hsn : storedName key d' = storedName k d
              · have hpd : (key, d') = (k, d) :=
                  huniq (key, d') (List.mem_cons_self _ rest) hsn hc2
                obtain ⟨hkey, hd⟩ := Prod.mk.injEq .. |>.mp hpd
                obtain ⟨x, hx⟩ : ∃ x, s.config.get? k = some x := by
                  have hs := (PyDict.contains_iff_get?_isSome s.config k).mp hin
                  cases hg : s.config.get? k with
                  | none => rw [hg] at hs; cases hs
                  | some x => exact ⟨x, rfl⟩
                refine ⟨x, v', hx, ?_, ?_⟩
                · have hgd : s.config.getD key PyVal.noneV = x := by
                    rw [hkey]
                    show (s.config.get? k).getD PyVal.noneV = x
                    rw [hx]
                    rfl
                  rw [← hd, ← hgd]
                  exact htv
                · apply amCallGo_attrs_stable
                  · rw [← hsn]
                    exact PyDict.get?_set_self s.attrs (storedName key d') v'
                  · intro q hq hqsn hqin
                    have hq' : q = (k, d) := huniq q (List.mem_cons_of_mem _ hq) hqsn hqin
                    rw [hq']
                    have hgd : s.config.getD k PyVal.noneV = s.config.getD key PyVal.noneV := by
                      rw [hkey]
                    show typer d.coercer (s.config.getD k PyVal.noneV) = Except.ok v'
                    rw [hgd, ← hd]
                    exact htv
              · have hmem' : (k, d) ∈ rest := by
                  rcases List.mem_cons.mp hmem with h | h
                  · exfalso
                    obtain ⟨hkey, hd⟩ := Prod.mk.injEq .. |>.mp h.symm
                    exact hsn (by rw [hkey, hd])
                  · exact h
                exact ih _ hsucc hmem' hin
                  (fun q hq => huniq q (List.mem_cons_of_mem _ hq))
          | error e =>
              rw [htv] at hsucc
              exact Option.noConfusion hsucc
        · rw [if_neg hc2] at hsucc ⊢
          have hmem' : (k, d) ∈ rest := by
            rcases List.mem_cons.mp hmem with h | h
            · exfalso
              have hkey : key = k := (Prod.mk.injEq ..).mp h.symm |>.1
              rw [hkey] at hc2
              exact hc2 hin
            · exact h
          exact ih _ hsucc hmem' hin
            (fun q hq => huniq q (List.mem_cons_of_mem _ hq))

theorem amCall_ok_inv (name : String) (reg : PyDict FieldDecl) (cfg : PyDict PyVal)
    (attrs : PyDict PyVal) (h : amCall name reg cfg = Except.ok attrs) :
    (amCallGo name reg.entries ⟨cfg, PyDict.empty⟩).2 = Option.none ∧
    (amCallGo name reg.entries ⟨cfg, PyDict.empty⟩).1.attrs = attrs := by
  unfold amCall at h
  cases hgo : amCallGo name reg.entries ⟨cfg, PyDict.empty⟩ with
  | mk s e =>
      rw [hgo] at h
      cases e with
      | none => exact ⟨rfl, Except.ok.inj h⟩
      | some e' => cases h

theorem clearCache_preserves_false (cacheItems : List String) (a : String) :
    ∀ attrs : PyDict CVal, attrs.contains a = false →
    (clearCache cacheItems attrs).contains a = false := by
  induction cacheItems with
  | nil => intro attrs h; exact h
  | cons i rest ih =>
      intro attrs h
      show (List.foldl _ (if attrs.contains i then attrs.erase i else attrs) rest).contains a = false
      by_cases hc : attrs.contains i = true
      · rw [if_pos hc]
        exact ih _ (PyDict.erase_contains_false attrs i a h)
      · rw [if_neg hc]
        exact ih _ h

theorem clearCache_contains_false (cacheItems : List String) (a : String)
    (hmem : a ∈ cacheItems) :
    ∀ attrs : PyDict CVal, (clearCache cacheItems attrs).contains a = false := by
  induction cacheItems with
  | nil => cases hmem
  | cons i rest ih =>
      intro attrs
      show (List.foldl _ (if attrs.contains i then attrs.erase i else attrs) rest).contains a = false
      by_cases hia : i = a
      · by_cases hc : attrs.contains i = true
        · rw [if_pos hc]
          exact clearCache_preserves_false rest a _ (hia ▸ PyDict.contains_erase_self attrs i)
        · rw [if_neg hc]
          have hfa : attrs.contains a = false := by
            rw [← hia]
            cases h : attrs.contains i
            · rfl
            · exact absurd h hc
          exact clearCache_preserves_false rest a _ hfa
      · have hmem' : a ∈ rest := by
          rcases List.mem_cons.mp hmem with h | h
          · exact absurd h.symm hia
          · exact h
        by_cases hc : attrs.contains i = true
        · rw [if_pos hc]; exact ih hmem' _
        · rw [if_neg hc]; exact ih hmem' _

theorem clearCache_get?_notmem (cacheItems : List String) (a : String)
    (hnm : a ∉ cacheItems) :
    ∀ attrs : PyDict CVal, (clearCache cacheItems attrs).get? a = attrs.get? a := by
  induction cacheItems with
  | nil => intro attrs; rfl
  | cons i rest ih =>
      intro attrs
      have hia : a ≠ i := fun hc => hnm (hc ▸ List.mem_cons_self i rest)
      have hrest : a ∉ rest := fun hc => hnm (List.mem_cons_of_mem i hc)
      show (List.foldl _ (if attrs.contains i then attrs.erase i else attrs) rest).get? a = _
      by_cases hc : attrs.contains i = true
      · rw [if_pos hc]
        exact (ih hrest _).trans (PyDict.get?_erase_ne attrs i a hia)
      · rw [if_neg hc]
        exact ih hrest attrs

theorem clearCache_noop (cacheItems : List String) :
    ∀ attrs : PyDict CVal, (∀ a ∈ cacheItems, attrs.contains a = false) →
    clearCache cacheItems attrs = attrs := by
  induction cacheItems with
  | nil => intro attrs _; rfl
  | cons i rest ih =>
      intro attrs h
      show List.foldl _ (if attrs.contains i then attrs.erase i else attrs) rest = attrs
      rw [if_neg (by rw [h i (List.mem_cons_self i rest)]; simp)]
      exact ih attrs (fun a ha => h a (List.mem_cons_of_mem i ha))

theorem mem_foldl_union (a : String) (rest : List (Finset String)) :
    ∀ s : Finset String,
    (a ∈ rest.foldl (fun x y => x ∪ y) s ↔ a ∈ s ∨ ∃ t ∈ rest, a ∈ t) := by
  induction rest with
  | nil => intro s; simp
  | cons t rest' ih =>
      intro s
      rw [List.foldl_cons, ih (s ∪ t)]
      simp [Finset.mem_union, or_assoc]

theorem mem_reduceUnion (a : String) (sets : List (Finset String)) (h : sets ≠ []) :
    a ∈ reduceUnion sets ↔ ∃ t ∈ sets, a ∈ t := by
  cases sets with
  | nil => exact absurd rfl h
  | cons s rest =>
      rw [reduceUnion, mem_foldl_union a rest s]
      simp

theorem any_keyfilter {α : Type u} (l : List (String × α)) (q : String → Bool) (a : String) :
    (l.filter (fun kv => q kv.1)).any (fun kv => kv.1 = a) =
      (q a && l.any (fun kv => kv.1 = a)) := by
  induction l with
  | nil => simp
  | cons kv rest ih =>
      by_cases ha : kv.1 = a
      · cases hq : q a
        · have hq' : q kv.1 = false := by rw [ha, hq]
          simp [List.filter_cons, hq', ih, hq]
        · have hq' : q kv.1 = true := by rw [ha, hq]
          simp [List.filter_cons, hq', ha, hq]
      · cases hq' : q kv.1
        · simp [List.filter_cons, hq', ih, ha]
        · simp [List.filter_cons, hq', ih, ha]

/-- C1: the claim states that declaring a key with the explicit None marker in
a subclass removes it from the merged Declaration Registry.  The code instead
deletes the key inside a for loop over the same dict, so CPython raises
RuntimeError (dictionary changed size during iteration) at the next iterator
step and the class is never created: with a base declaring key a and a class
body retracting a with None, the merge evaluates to the RuntimeError
outcome rather than to a registry without a. -/
theorem spec_c1_deletion_marker_crash :
    amNew [baseMapA] ownDel = Except.error PyErr.runtimeError := rfl

/-- C5: the claim states that filter application on a configuration missing a
required key fails with an error reporting the identity of a constituent type.
The raise statement in SCFilter.call formats cls.dunder-name with cls unbound
in that scope, so the call fails with a NameError instead: a filter over a
class requiring x, applied to the empty configuration, evaluates to the
NameError outcome. -/
theorem spec_c5_undefined_cls_nameerror :
    scFilterCall [regReqX] PyDict.empty = Except.error PyErr.nameError := by
  rw [scFilterCall, scFilterRun,
    if_neg (by decide : ¬∀ k ∈ scFilterRequired [regReqX],
      PyDict.contains (PyDict.empty (α := PyVal)) k = true)]

/-- C3 counterexample: with two required keys a and b and an empty
configuration, construction raises the required-parameter error naming a, the
first missing required key in registry order, not b; so the claim that
construction lacking b fails with an error naming b is false at this input. -/
theorem spec_c3_counterexample :
    PyDict.get? regTwoReq "b" = some declReq
    ∧ PyDict.contains (PyDict.empty (α := PyVal)) "b" = false
    ∧ amCall "T" regTwoReq PyDict.empty = Except.error (PyErr.missingRequiredKey "T" "a")
    ∧ PyErr.missingRequiredKey "T" "a" ≠ PyErr.missingRequiredKey "T" "b" :=
  ⟨rfl, rfl, rfl, by decide⟩

/-- C4 counterexample: for a filter over a single class declaring only the
required key x, the key x lies in the required set and also in the optional
set computed by the code (symmetric_difference_update, not a difference), so
the claim that the optional set excludes every required key is false at this
input. -/
theorem spec_c4_counterexample :
    "x" ∈ scFilterRequired [regReqX] ∧ "x" ∈ scFilterOptional [regReqX] := by
  decide

/-- C7 counterexample: a declaration renaming key a to the storage name a
itself has a non-absent rename slot, yet construction sets the attribute a,
the original key name; so the claim that a renamed field sets no attribute at
the original key name is false at this input. -/
theorem spec_c7_counterexample :
    PyDict.get? regSelfRename "a" = some ⟨true, some "a", Option.none⟩
    ∧ amCall "T" regSelfRename cfgA5 = Except.ok ⟨[("a", PyVal.int 5)]⟩
    ∧ PyDict.contains (⟨[("a", PyVal.int 5)]⟩ : PyDict PyVal) "a" = true :=
  ⟨rfl, rfl, rfl⟩

/-- C8 counterexample: the configuration-storage attribute is not in the cache
list, yet reassigning the configuration changes it; so the claim that every
attribute outside the cache list is left unchanged by reassignment is false at
this input. -/
theorem spec_c8_counterexample :
    "_systemConfig" ∉ ["_x"]
    ∧ (setSystemConfig ["_x"] cacheAttrs0 cfgNew).get? "_systemConfig" ≠
        cacheAttrs0.get? "_systemConfig" := by
  decide

/-- C2: coercion behaviour of a declared field with a coercer.  The first
conjunct characterizes the typer closure for every coercer and input: the
coerced value is the result of the coercer, except that a TypeError on a
numerically complex input with a real floating target is retried exactly once
on the real component (whose result, value or error, is final, because a real
component is never numerically complex); any other failure propagates
unchanged.  The second conjunct ties this to construction: for a registry
declaring one coerced field present in the configuration, the constructed
attribute dict stores the typer result under the stored name, and a typer
error is the error of the whole construction. -/
theorem spec_c2_coercion (c : Coercer) (x : PyVal) :
    (typer (some c) x =
      match c.apply x with
      | Except.ok v => Except.ok v
      | Except.error PyErr.typeError =>
          if iscomplex x && c.floating then c.apply x.real
          else Except.error PyErr.typeError
      | Except.error e => Except.error e)
    ∧ (∀ (name k : String) (req : Bool) (rn : Option String) (cfg : PyDict PyVal)
        (x0 : PyVal), cfg.get? k = some x0 →
        amCall name ⟨[(k, ⟨req, rn, some c⟩)]⟩ cfg =
          (typer (some c) x0).map (fun v => (PyDict.empty).set (rn.getD k) v)) := by
  constructor
  · show typerFuel 2 c x = _
    rw [typerFuel]
    cases hap : c.apply x with
    | ok v => rfl
    | error e =>
        cases e with
        | typeError =>
            by_cases hif : (iscomplex x && c.floating) = true
            · rw [if_pos hif, if_pos hif]
              rw [typerFuel]
              cases hap' : c.apply x.real with
              | ok v => rfl
              | error e' =>
                  cases e' with
                  | typeError => rw [if_neg (by rw [iscomplex_real_false]; simp)]
                  | runtimeError => rfl
                  | nameError => rfl
                  | missingRequiredKey a b => rfl
            · rw [if_neg hif, if_neg hif]
        | runtimeError => rfl
        | nameError => rfl
        | missingRequiredKey a b => rfl
  · intro name k req rn cfg x0 hx0
    have hin : cfg.contains k = true := by
      rw [PyDict.contains_iff_get?_isSome, hx0]
      rfl
    have hgd : cfg.getD k PyVal.noneV = x0 := by
      show (cfg.get? k).getD PyVal.noneV = x0
      rw [hx0]
      rfl
    show (match amCallGo name [(k, ⟨req, rn, some c⟩)] ⟨cfg, PyDict.empty⟩ with
      | (s, Option.none) => Except.ok s.attrs
      | (_, some e) => Except.error e) = _
    rw [amCallGo]
    simp only [hin, Bool.not_true, Bool.false_and, Bool.false_eq_true, if_false, if_true]
    rw [hgd]
    cases htv : typer (some c) x0 with
    | ok v => rfl
    | error e => rfl

/-- C2 witness: constructing a field declared with the float coercer from the
complex input 3 + 4i stores the coerced real component 3.0, by the coercion
theorem applied at this concrete registry and configuration. -/
theorem spec_c2_coercion_witness :
    amCall "T" regFloatF cfgF34 = Except.ok ((PyDict.empty).set "f" (PyVal.float 3)) :=
  ((spec_c2_coercion floatC (PyVal.complexV 3 4)).2 "T" "f" true Option.none cfgF34
    (PyVal.complexV 3 4) rfl).trans rfl

/-- C3 (amended): constructing from a configuration lacking a required
declared key always fails; the raised error is the required-parameter error
naming the constructed type and the first required-and-absent key in registry
order, provided every earlier declared key that is present coerces
successfully (in particular it names k whenever k is that first key); and when
k is present in the configuration, construction is unchanged by dropping the
required flag of k, so it never fails on account of the presence check for
k. -/
theorem spec_c3_missing_required (name k : String) (reg : PyDict FieldDecl)
    (cfg : PyDict PyVal) :
    ((∃ d, (k, d) ∈ reg.entries ∧ d.required = true ∧ cfg.contains k = false) →
      ∃ e, amCall name reg cfg = Except.error e)
    ∧ (∀ (pre : List (String × FieldDecl)) (d : FieldDecl)
        (post : List (String × FieldDecl)),
        reg.entries = pre ++ (k, d) :: post → d.required = true →
        cfg.contains k = false →
        (∀ p ∈ pre, (p.2.required = true → cfg.contains p.1 = true) ∧
          (cfg.contains p.1 = true →
            ∃ v, typer p.2.coercer (cfg.getD p.1 PyVal.noneV) = Except.ok v)) →
        amCall name reg cfg = Except.error (PyErr.missingRequiredKey name k))
    ∧ (cfg.contains k = true →
        amCall name reg cfg = amCall name (unrequireKey k reg) cfg) := by
  refine ⟨?_, ?_, ?_⟩
  · rintro ⟨d, hmem, hreq, habs⟩
    obtain ⟨e, he⟩ := amCallGo_fails name reg.entries ⟨cfg, PyDict.empty⟩ k d hmem hreq habs
    refine ⟨e, ?_⟩
    unfold amCall
    cases hgo : amCallGo name reg.entries ⟨cfg, PyDict.empty⟩ with
    | mk s eo =>
        rw [hgo] at he
        cases eo with
        | none => cases he
        | some e' => rw [Option.some.inj he]
  · intro pre d post hsplit hreq habs hpre
    have he := amCallGo_first_missing name k d pre post ⟨cfg, PyDict.empty⟩ habs hreq hpre
    unfold amCall
    rw [hsplit]
    cases hgo : amCallGo name (pre ++ (k, d) :: post) ⟨cfg, PyDict.empty⟩ with
    | mk s eo =>
        rw [hgo] at he
        cases eo with
        | none => cases he
        | some e' => rw [Option.some.inj he]
  · intro hin
    unfold amCall
    rw [show (unrequireKey k reg).entries =
      reg.entries.map
        (fun p => if p.1 = k then (p.1, ⟨false, p.2.rename, p.2.coercer⟩) else p) from rfl]
    rw [amCallGo_unrequire name k reg.entries ⟨cfg, PyDict.empty⟩ hin]

/-- C3 witness: for the two-required-key registry, construction from the empty
configuration fails, and the error names the first missing required key a; and
with a present, construction agrees with the construction in which a is not
required. -/
theorem spec_c3_missing_required_witness :
    (∃ e, amCall "T" regTwoReq PyDict.empty = Except.error e)
    ∧ amCall "T" regTwoReq PyDict.empty =
        Except.error (PyErr.missingRequiredKey "T" "a")
    ∧ amCall "T" regTwoReq cfgA5 = amCall "T" (unrequireKey "a" regTwoReq) cfgA5 :=
  ⟨(spec_c3_missing_required "T" "b" regTwoReq PyDict.empty).1
      ⟨declReq, List.mem_cons_of_mem _ (List.mem_cons_self _ _), rfl, rfl⟩,
   (spec_c3_missing_required "T" "a" regTwoReq PyDict.empty).2.1 [] declReq
      [("b", declReq)] rfl rfl rfl (by simp),
   (spec_c3_missing_required "T" "a" regTwoReq cfgA5).2.2 (by decide)⟩

/-- C4 (amended): for a filter built from a nonempty collection of classes,
the required set is the union of the per-class required sets, and the optional
set is the symmetric difference of the union of the per-class optional sets
with the required set (the code applies symmetric_difference_update, which
removes shared keys from optional but also adds keys that are required and
nowhere optional). -/
theorem spec_c4_filter_sets (clss : List (PyDict FieldDecl)) (h : clss ≠ [])
    (a : String) :
    (a ∈ scFilterRequired clss ↔ ∃ reg ∈ clss, a ∈ requiredOf reg)
    ∧ (a ∈ scFilterOptional clss ↔
        Xor' (∃ reg ∈ clss, a ∈ optionalOf reg) (∃ reg ∈ clss, a ∈ requiredOf reg)) := by
  have hmapr : clss.map requiredOf ≠ [] := by
    cases clss
    · exact absurd rfl h
    · simp
  have hmapo : clss.map optionalOf ≠ [] := by
    cases clss
    · exact absurd rfl h
    · simp
  have hr : a ∈ scFilterRequired clss ↔ ∃ reg ∈ clss, a ∈ requiredOf reg := by
    rw [scFilterRequired, mem_reduceUnion a _ hmapr]
    simp
  have ho : a ∈ reduceUnion (clss.map optionalOf) ↔ ∃ reg ∈ clss, a ∈ optionalOf reg := by
    rw [mem_reduceUnion a _ hmapo]
    simp
  refine ⟨hr, ?_⟩
  rw [scFilterOptional]
  simp only [Finset.mem_union, Finset.mem_sdiff]
  unfold Xor'
  constructor
  · rintro (⟨hoa, hra⟩ | ⟨hra, hoa⟩)
    · exact Or.inl ⟨ho.mp hoa, fun hc => hra (hr.mpr hc)⟩
    · exact Or.inr ⟨hr.mp hra, fun hc => hoa (ho.mpr hc)⟩
  · rintro (⟨hoa, hra⟩ | ⟨hra, hoa⟩)
    · exact Or.inl ⟨ho.mpr hoa, fun hc => hra (hr.mp hc)⟩
    · exact Or.inr ⟨hr.mpr hra, fun hc => hoa (ho.mp hc)⟩

/-- C4 witness: instantiating the filter-set theorem at the single class
requiring x shows x required, and x optional exactly because it is required
and nowhere optional. -/
theorem spec_c4_filter_sets_witness :
    ("x" ∈ scFilterRequired [regReqX] ↔ ∃ reg ∈ [regReqX], "x" ∈ requiredOf reg)
    ∧ ("x" ∈ scFilterOptional [regReqX] ↔
        Xor' (∃ reg ∈ [regReqX], "x" ∈ optionalOf reg)
          (∃ reg ∈ [regReqX], "x" ∈ requiredOf reg)) :=
  spec_c4_filter_sets [regReqX] (by simp) "x"

/-- C6: applying a filter built from a nonempty collection of classes to a
configuration containing every combined required key succeeds, and the
returned dict contains a key exactly when the key lies in the union of the
combined required and optional sets and in the configuration; in particular no
key absent from the configuration appears. -/
theorem spec_c6_filter_output (clss : List (PyDict FieldDecl)) (cfg : PyDict PyVal)
    (h1 : clss ≠ [])
    (h2 : ∀ k ∈ scFilterRequired clss, cfg.contains k = true) :
    ∃ out, scFilterCall clss cfg = Except.ok out ∧
      ∀ a, out.contains a = true ↔
        (a ∈ scFilterRequired clss ∪ scFilterOptional clss ∧ cfg.contains a = true) := by
  refine ⟨⟨cfg.entries.filter
    (fun kv => decide (kv.1 ∈ scFilterRequired clss ∪ scFilterOptional clss))⟩, ?_, ?_⟩
  · rw [scFilterCall, scFilterRun, if_pos h2]
  · intro a
    show (cfg.entries.filter
      (fun kv => decide (kv.1 ∈ scFilterRequired clss ∪ scFilterOptional clss))).any
        (fun kv => kv.1 = a) = true ↔ _
    rw [any_keyfilter cfg.entries
      (fun s => decide (s ∈ scFilterRequired clss ∪ scFilterOptional clss)) a]
    rw [Bool.and_eq_true, decide_eq_true_iff]
    exact Iff.rfl

/-- C6 witness: the filter over the class requiring x, applied to a
configuration with keys x and z, returns a dict whose key membership is
exactly membership in both the combined key sets and the configuration. -/
theorem spec_c6_filter_output_witness :
    ∃ out, scFilterCall [regReqX] cfgXZ = Except.ok out ∧
      ∀ a, out.contains a = true ↔
        (a ∈ scFilterRequired [regReqX] ∪ scFilterOptional [regReqX]
          ∧ cfgXZ.contains a = true) :=
  spec_c6_filter_output [regReqX] cfgXZ (by simp) (by decide)

/-- C7 (amended): for a successfully constructed instance and a declared field
k, (i) when no declared field stores under the name k (in particular when k is
renamed to a different name and no other field renames to k), the instance has
no attribute k; and (ii) when k is present in the configuration and k is the
only declared field whose present key stores under the stored name of k, the
attribute at that stored name (the rename when declared, otherwise k) is the
coerced configuration value of k.  The unamended claim fails when a storage
name collides with k, for example a field renamed to its own key name. -/
theorem spec_c7_rename (name : String) (reg : PyDict FieldDecl) (cfg : PyDict PyVal)
    (attrs : PyDict PyVal) (k : String) (d : FieldDecl)
    (hok : amCall name reg cfg = Except.ok attrs)
    (hmem : (k, d) ∈ reg.entries) :
    ((∀ p ∈ reg.entries, storedName p.1 p.2 ≠ k) → attrs.get? k = Option.none)
    ∧ (cfg.contains k = true →
       (∀ p ∈ reg.entries, storedName p.1 p.2 = storedName k d →
         cfg.contains p.1 = true → p = (k, d)) →
       ∃ x v, cfg.get? k = some x ∧ typer d.coercer x = Except.ok v ∧
         attrs.get? (storedName k d) = some v) := by
  obtain ⟨hsucc, hattrs⟩ := amCall_ok_inv name reg cfg attrs hok
  constructor
  · intro hnone
    rw [← hattrs]
    exact amCallGo_attrs_absent name reg.entries k ⟨cfg, PyDict.empty⟩ rfl hnone
  · intro hin huniq
    obtain ⟨x, v, hx, hv, hget⟩ :=
      amCallGo_attrs_value name reg.entries k d ⟨cfg, PyDict.empty⟩ hsucc hmem hin huniq
    exact ⟨x, v, hx, hv, hattrs ▸ hget⟩

/-- C7 witness: applying the rename theorem to a registry declaring key a with
rename to the distinct storage name b shows the constructed instance exposes
the value at b and has no attribute a. -/
theorem spec_c7_rename_witness :
    (∃ x v, cfgA5.get? "a" = some x
      ∧ typer (Option.none : Option Coercer) x = Except.ok v
      ∧ (⟨[("b", PyVal.int 5)]⟩ : PyDict PyVal).get? "b" = some v)
    ∧ (⟨[("b", PyVal.int 5)]⟩ : PyDict PyVal).get? "a" = Option.none :=
  ⟨(spec_c7_rename "T" ⟨[("a", ⟨true, some "b", Option.none⟩)]⟩ cfgA5
      ⟨[("b", PyVal.int 5)]⟩ "a" ⟨true, some "b", Option.none⟩ rfl
      (List.mem_cons_self _ _)).2 rfl
      (by intro p hp _ _; rw [List.mem_singleton.mp hp]),
   (spec_c7_rename "T" ⟨[("a", ⟨true, some "b", Option.none⟩)]⟩ cfgA5
      ⟨[("b", PyVal.int 5)]⟩ "a" ⟨true, some "b", Option.none⟩ rfl
      (List.mem_cons_self _ _)).1
      (by intro p hp; rw [List.mem_singleton.mp hp]; decide)⟩

/-- C8 (amended): reassigning the configuration on a caching instance removes
every attribute named in the cache list, leaves every attribute that is
neither in the cache list nor the configuration-storage attribute unchanged,
and sets the configuration-storage attribute to the new value (the unamended
claim fails on the configuration-storage attribute itself, which reassignment
necessarily changes); removing an absent cache attribute is a no-op, not an
error, since the setter is total. -/
theorem spec_c8_invalidation (cacheItems : List String) (attrs : PyDict CVal)
    (value : PyDict PyVal) (a : String) :
    (a ∈ cacheItems → (setSystemConfig cacheItems attrs value).contains a = false)
    ∧ (a ∉ cacheItems → a ≠ "_systemConfig" →
        (setSystemConfig cacheItems attrs value).get? a = attrs.get? a)
    ∧ (a = "_systemConfig" → a ∉ cacheItems →
        (setSystemConfig cacheItems attrs value).get? a = some (CVal.cfgv value)) := by
  refine ⟨?_, ?_, ?_⟩
  · intro hmem
    exact clearCache_contains_false cacheItems a hmem _
  · intro hnm hne
    rw [setSystemConfig, clearCache_get?_notmem cacheItems a hnm _,
      PyDict.get?_set_ne attrs "_systemConfig" a (CVal.cfgv value) hne]
  · intro ha hnm
    rw [setSystemConfig, clearCache_get?_notmem cacheItems a hnm _, ha,
      PyDict.get?_set_self attrs "_systemConfig" (CVal.cfgv value)]

/-- C8 witness: on the concrete caching instance, reassignment removes the
listed cached attribute, preserves the unrelated attribute, and stores the new
configuration value, by the invalidation theorem at each attribute name. -/
theorem spec_c8_invalidation_witness :
    (setSystemConfig ["_x"] cacheAttrs0 cfgNew).contains "_x" = false
    ∧ (setSystemConfig ["_x"] cacheAttrs0 cfgNew).get? "_y" = cacheAttrs0.get? "_y"
    ∧ (setSystemConfig ["_x"] cacheAttrs0 cfgNew).get? "_systemConfig" =
        some (CVal.cfgv cfgNew) :=
  ⟨(spec_c8_invalidation ["_x"] cacheAttrs0 cfgNew "_x").1 (List.mem_cons_self _ _),
   (spec_c8_invalidation ["_x"] cacheAttrs0 cfgNew "_y").2.1 (by decide) (by decide),
   (spec_c8_invalidation ["_x"] cacheAttrs0 cfgNew "_systemConfig").2.2 rfl (by decide)⟩

/-- C9: neither constructing a mapped object nor applying a filter mutates the
supplied configuration dictionary: in the state-threaded embeddings, whose
states carry exactly the configuration dict and the attribute dict of the new
instance, the configuration component after the constructor loop and after the
filter call equals the input for every registry, class list, and
configuration. -/
theorem spec_c9_no_config_mutation (name : String) (reg : PyDict FieldDecl)
    (cfg : PyDict PyVal) (clss : List (PyDict FieldDecl)) :
    (amCallGo name reg.entries ⟨cfg, PyDict.empty⟩).1.config = cfg
    ∧ (scFilterRun clss cfg).1 = cfg := by
  constructor
  · exact amCallGo_config name reg.entries ⟨cfg, PyDict.empty⟩
  · rw [scFilterRun]
    split
    · rfl
    · rfl

/-- C10: clearCache is idempotent: after one pass every listed attribute is
absent, so a second pass finds nothing to delete and returns the attribute
dict of the first pass unchanged, for every cache list and instance state. -/
theorem spec_c10_clearcache_idempotent (cacheItems : List String)
    (attrs : PyDict CVal) :
    clearCache cacheItems (clearCache cacheItems attrs) = clearCache cacheItems attrs :=
  clearCache_noop cacheItems (clearCache cacheItems attrs)
    (fun a ha => clearCache_contains_false cacheItems a ha attrs)
